import Mathlib

/-!
# Verification of `corridor.cpp` (orzechow/corridor)

A shallow embedding of `src/src/corridor.cpp` in Lean 4.  Real numbers
(`RealType`, a `double` in the C++ code) are modelled as `ℚ` so that every
definition is executable and every comparison decidable.

The repository's headers (`corridor.h`, `cubic_spline.h`, `frenet_types.h`)
are not part of the given source.  The cubic-spline reference curve is an
external collaborator and is kept fully abstract (a structure of function
fields, matching the contract in §6 of the design document).  The few pieces
of repository code that live only in the missing headers (`FrenetPolyline`
lookup, `CorridorSequence::get`, `Corridor::curvatureAt`) are modelled from
the specification and are marked as such in their doc comments.
-/

namespace CorridorProof

/-- `RealType` from the C++ code, modelled as `ℚ`. -/
abbrev RealType : Type := ℚ

/-- `CartesianPoint2D` / `CartesianVector2D`: a plain 2D coordinate pair. -/
abbrev CartesianPoint2D : Type := ℚ × ℚ

abbrev CartesianVector2D : Type := ℚ × ℚ

/-- Frenet coordinates as used by this code base: `l` is the arc-length
(longitudinal) coordinate along the reference line — the quantity the
sequence-resolution code compares against `lengthReferenceLine()` — and `d`
is the signed lateral deviation. -/
structure FrenetPosition where
  l : RealType
  d : RealType
deriving DecidableEq, Repr

/-- The local orthonormal frame of the reference curve at some arc-length. -/
structure FrenetFrame2D where
  origin : CartesianPoint2D
  tangent : CartesianVector2D
  normal : CartesianVector2D
deriving DecidableEq, Repr

/-- The projection result returned by the curve: Frenet position plus frame. -/
structure FrenetPositionWithFrame where
  position : FrenetPosition
  frame : FrenetFrame2D
deriving DecidableEq, Repr

/-- `BoundaryDistances`: `std::pair` of signed distances (left, right). -/
abbrev BoundaryDistances : Type := ℚ × ℚ

/-- A `FrenetPolyline` is an ordered list of `(arc_length, deviation)` nodes. -/
abbrev FrenetPolyline : Type := List (ℚ × ℚ)

/-- Modelled from the spec: `FrenetPolyline::deviationAt` of the missing
`frenet_types` header — "an ordered piecewise-linear mapping from arc-length
to a lateral-offset value" with clamping extrapolation at the domain edges
("defined extrapolation at domain edges", recommended clamp). -/
def deviationAt : FrenetPolyline → ℚ → ℚ
  | [], _ => 0
  | [(_, v)], _ => v
  | (s₁, v₁) :: (s₂, v₂) :: rest, s =>
    if s ≤ s₁ then v₁
    else if s < s₂ then v₁ + (v₂ - v₁) * (s - s₁) / (s₂ - s₁)
    else deviationAt ((s₂, v₂) :: rest) s

/-- The external arc-length-parameterized reference curve
(`corridor::cubic_spline::CubicSpline`), kept abstract as a structure of the
query functions the corridor code consumes (contract of §6 of the design
document).  `getFrenetPositionWithFrame` takes an optional arc-length hint;
`none` stands for the C++ default argument used when no hint is passed. -/
structure CubicSpline where
  GetSize : ℕ
  GetArclengthAtIndex : ℕ → ℚ
  GetTotalLength : ℚ
  GetPositionAt : ℚ → CartesianPoint2D
  GetNormalVectorAt : ℚ → CartesianVector2D
  GetCurvatureAt : ℚ → ℚ
  getFrenetPositionWithFrame : CartesianPoint2D → Option ℚ → FrenetPositionWithFrame

/-- A corridor: one reference curve and two lateral boundary polylines. -/
structure Corridor where
  id : ℕ
  referenceLine : CubicSpline
  leftBound : FrenetPolyline
  rightBound : FrenetPolyline

/-- The fixed-width constructor
`Corridor(id, reference_line_pts, distance_left_boundary,
distance_right_boundary)` (corridor.cpp lines 14-26): after fitting the
reference spline it fills both boundary polylines with one node per spline
point, at that point's arc-length, with constant values
`distance_left_boundary` and `-distance_right_boundary`.  The already-fitted
spline stands for `cs::CubicSpline(id, reference_line_pts)`. -/
def Corridor.fixedWidth (id : ℕ) (referenceLine : CubicSpline)
    (distance_left_boundary distance_right_boundary : ℚ) : Corridor where
  id := id
  referenceLine := referenceLine
  leftBound :=
    (List.range referenceLine.GetSize).map
      (fun i => (referenceLine.GetArclengthAtIndex i, distance_left_boundary))
  rightBound :=
    (List.range referenceLine.GetSize).map
      (fun i => (referenceLine.GetArclengthAtIndex i, -distance_right_boundary))

/-- `Corridor::signedDistancesAt` (corridor.cpp lines 64-68). -/
def Corridor.signedDistancesAt (c : Corridor) (arc_length : ℚ) : BoundaryDistances :=
  (deviationAt c.leftBound arc_length, deviationAt c.rightBound arc_length)

/-- `Corridor::widthAt` (corridor.cpp lines 70-73). -/
def Corridor.widthAt (c : Corridor) (arc_length : ℚ) : ℚ :=
  deviationAt c.leftBound arc_length + |deviationAt c.rightBound arc_length|

/-- `Corridor::centerOffset` (corridor.cpp lines 75-78). -/
def Corridor.centerOffset (c : Corridor) (arc_length : ℚ) : ℚ :=
  ((c.signedDistancesAt arc_length).1 + (c.signedDistancesAt arc_length).2) * (1 / 2)

/-- `Corridor::lengthReferenceLine` (corridor.cpp lines 80-82). -/
def Corridor.lengthReferenceLine (c : Corridor) : ℚ :=
  c.referenceLine.GetTotalLength

/-- Modelled from the spec: `Corridor::curvatureAt`, declared only in the
missing `corridor.h` header; per §4.2 the sequence delegates the same-named
query to the corridor, which consumes the reference curve. -/
def Corridor.curvatureAt (c : Corridor) (arc_length : ℚ) : ℚ :=
  c.referenceLine.GetCurvatureAt arc_length

/-- `Corridor::getFrenetPositionWithFrame` (corridor.cpp lines 89-93):
delegates to the reference curve, forwarding the (optional) hint. -/
def Corridor.getFrenetPositionWithFrame (c : Corridor) (position : CartesianPoint2D)
    (arc_length_hint : Option ℚ) : FrenetPositionWithFrame :=
  c.referenceLine.getFrenetPositionWithFrame position arc_length_hint

/-- One iteration body of `Corridor::fillCartesianPolylines` (corridor.cpp
lines 114-121 and 128-136): the triple of points pushed onto the
reference-line, left-boundary and right-boundary polylines for arc-length
`q` — `position`, `position + d_left * normal`, `position + d_right * normal`. -/
def Corridor.sampleAt (c : Corridor) (q : ℚ) :
    CartesianPoint2D × CartesianPoint2D × CartesianPoint2D :=
  let position := c.referenceLine.GetPositionAt q
  let normal := c.referenceLine.GetNormalVectorAt q
  let d_left := deviationAt c.leftBound q
  let d_right := deviationAt c.rightBound q
  (position, position + d_left • normal, position + d_right • normal)

/-- The `while (query_l <= max_length)` loop of
`Corridor::fillCartesianPolylines` (corridor.cpp lines 113-124), embedded
with explicit fuel: `none` means the fuel ran out before the loop condition
became false.  On success it returns the final value of `query_l` together
with the list of emitted sample triples. -/
def Corridor.fillLoop (c : Corridor) (delta_l : ℚ) :
    ℕ → ℚ → Option (ℚ × List (CartesianPoint2D × CartesianPoint2D × CartesianPoint2D))
  | 0, query_l =>
    if query_l ≤ c.referenceLine.GetTotalLength then none else some (query_l, [])
  | fuel + 1, query_l =>
    if query_l ≤ c.referenceLine.GetTotalLength then
      (c.fillLoop delta_l fuel (query_l + delta_l)).map
        (fun r => (r.1, c.sampleAt query_l :: r.2))
    else some (query_l, [])

/-- `Corridor::fillCartesianPolylines` (corridor.cpp lines 104-138).  The
three in-out parameters are the previous contents of the output polylines;
the function clears them (lines 108-110), runs the sampling loop, and — when
the loop left `query_l` strictly beyond `max_length` (line 126) — appends one
more sample at exactly `max_length`.  `none` signals a non-terminating loop
(fuel exhausted). -/
def Corridor.fillCartesianPolylines (c : Corridor) (delta_l : ℚ)
    (_reference_line _left_boundary _right_boundary : List CartesianPoint2D)
    (fuel : ℕ) :
    Option (List CartesianPoint2D × List CartesianPoint2D × List CartesianPoint2D) :=
  (c.fillLoop delta_l fuel 0).map (fun r =>
    ((if c.referenceLine.GetTotalLength < r.1 then
        r.2 ++ [c.sampleAt c.referenceLine.GetTotalLength] else r.2).map
      (fun t => t.1),
     (if c.referenceLine.GetTotalLength < r.1 then
        r.2 ++ [c.sampleAt c.referenceLine.GetTotalLength] else r.2).map
      (fun t => t.2.1),
     (if c.referenceLine.GetTotalLength < r.1 then
        r.2 ++ [c.sampleAt c.referenceLine.GetTotalLength] else r.2).map
      (fun t => t.2.2)))

/-! ## CorridorSequence

`CorridorSequence` owns a `std::map<RealType, CorridorPtr>` keyed by the
cumulative start arc-length.  We embed the map as its ordered list of
`(key, corridor)` entries and an iterator as an index into that list. -/

/-- The entry list of a `CorridorSequenceMap`. -/
abbrev CorridorSequenceMap : Type := List (ℚ × Corridor)

/-- Modelled from the spec: `CorridorSequence::get`, declared only in the
missing `corridor.h` header — "given a global arc-length `s`, `get(s)`
returns the greatest key ≤ `s`", as the index of that entry; when every key
exceeds `s` the first entry is returned (the `upper_bound` iterator is at
`begin` and cannot be stepped back). -/
def seqGet : CorridorSequenceMap → ℚ → ℕ
  | [], _ => 0
  | [_], _ => 0
  | _ :: e₂ :: rest, s => if e₂.1 ≤ s then seqGet (e₂ :: rest) s + 1 else 0

/-- Local arc-length of the projection of `position` into the corridor at
entry `i` (the `position_with_frame.position.l()` the resolution code
branches on); junk value `0` outside the entry list. -/
def projL (seq : CorridorSequenceMap) (position : CartesianPoint2D) (i : ℕ) : ℚ :=
  match seq.get? i with
  | some e => ((e.2.getFrenetPositionWithFrame position none).position).l
  | none => 0

/-- Reference-line length of the corridor at entry `i`; junk value `0`
outside the entry list. -/
def lenAt (seq : CorridorSequenceMap) (i : ℕ) : ℚ :=
  match seq.get? i with
  | some e => e.2.lengthReferenceLine
  | none => 0

/-- Key of the entry at index `i`; junk value `0` outside the entry list. -/
def keyAt (seq : CorridorSequenceMap) (i : ℕ) : ℚ :=
  match seq.get? i with
  | some e => e.1
  | none => 0

/-- `CorridorSequence::signedDistancesAt` (corridor.cpp lines 144-149):
locate the owning corridor with `get`, translate to the corridor-local
arc-length, delegate. -/
def seqSignedDistancesAt (seq : CorridorSequenceMap) (arc_length : ℚ) : BoundaryDistances :=
  match seq.get? (seqGet seq arc_length) with
  | some e => e.2.signedDistancesAt (arc_length - e.1)
  | none => (0, 0)

/-- `CorridorSequence::widthAt` (corridor.cpp lines 151-155). -/
def seqWidthAt (seq : CorridorSequenceMap) (arc_length : ℚ) : ℚ :=
  match seq.get? (seqGet seq arc_length) with
  | some e => e.2.widthAt (arc_length - e.1)
  | none => 0

/-- `CorridorSequence::centerOffsetAt` (corridor.cpp lines 157-162). -/
def seqCenterOffsetAt (seq : CorridorSequenceMap) (arc_length : ℚ) : ℚ :=
  match seq.get? (seqGet seq arc_length) with
  | some e => e.2.centerOffset (arc_length - e.1)
  | none => 0

/-- `CorridorSequence::curvatureAt` (corridor.cpp lines 164-169). -/
def seqCurvatureAt (seq : CorridorSequenceMap) (arc_length : ℚ) : ℚ :=
  match seq.get? (seqGet seq arc_length) with
  | some e => e.2.curvatureAt (arc_length - e.1)
  | none => 0

/-- `CorridorSequence::totalLength` (corridor.cpp lines 171-174):
`rbegin()->first + rbegin()->second->lengthReferenceLine()`.  The empty case
is a precondition violation in C++ (dereferencing `rend`); the model returns
the junk value `0` there. -/
def seqTotalLength (seq : CorridorSequenceMap) : ℚ :=
  match seq.getLast? with
  | some e => e.1 + e.2.lengthReferenceLine
  | none => 0

/-- The iterator-taking overload of
`CorridorSequence::getFrenetPositionWithFrame` (corridor.cpp lines 183-208),
embedded with explicit fuel (`none` = the mutual recursion did not finish
within `fuel` unfoldings, or the iterator was invalid).  One unfolding:
project `position` into the current corridor (passing no hint), step to the
previous entry if the local arc-length is negative and a previous entry
exists, else step to the next entry if the local arc-length strictly exceeds
this corridor's reference-line length and a next entry exists, else return
the projection. -/
def seqResolve (seq : CorridorSequenceMap) (position : CartesianPoint2D) :
    ℕ → ℕ → Option FrenetPositionWithFrame
  | 0, _ => none
  | fuel + 1, i =>
    match seq.get? i with
    | none => none
    | some e =>
      if (e.2.getFrenetPositionWithFrame position none).position.l < 0 ∧ i ≠ 0 then
        seqResolve seq position fuel (i - 1)
      else if e.2.lengthReferenceLine <
          (e.2.getFrenetPositionWithFrame position none).position.l ∧
          i + 1 < seq.length then
        seqResolve seq position fuel (i + 1)
      else some (e.2.getFrenetPositionWithFrame position none)

/-- The public entry point `CorridorSequence::getFrenetPositionWithFrame`
(corridor.cpp lines 176-181): select the starting iterator with
`get(start_arc_length)` and run the recursive resolution. -/
def seqGetFrenetPositionWithFrame (seq : CorridorSequenceMap)
    (position : CartesianPoint2D) (start_arc_length : ℚ) (fuel : ℕ) :
    Option FrenetPositionWithFrame :=
  seqResolve seq position fuel (seqGet seq start_arc_length)

/-- The resolution algorithm exactly as the specification words it (§4.2,
steps 1-4), written independently of the code to be compared with it:
project the point into the corridor selected by the current entry; if the
local arc-length of the projection is negative and a previous corridor
exists, recurse into the previous corridor and return that result; else if
the local arc-length exceeds the current corridor's reference-line length
and a next corridor exists, recurse into the next corridor and return that
result; otherwise return the current corridor's projection unchanged. -/
def specResolve (seq : CorridorSequenceMap) (position : CartesianPoint2D) :
    ℕ → ℕ → Option FrenetPositionWithFrame
  | 0, _ => none
  | fuel + 1, i =>
    match seq.get? i with
    | none => none
    | some e =>
      if (e.2.getFrenetPositionWithFrame position none).position.l < 0 then
        if 0 < i then specResolve seq position fuel (i - 1)
        else if e.2.lengthReferenceLine <
            (e.2.getFrenetPositionWithFrame position none).position.l ∧
            i + 1 < seq.length then specResolve seq position fuel (i + 1)
        else some (e.2.getFrenetPositionWithFrame position none)
      else if e.2.lengthReferenceLine <
          (e.2.getFrenetPositionWithFrame position none).position.l then
        if i + 1 < seq.length then specResolve seq position fuel (i + 1)
        else some (e.2.getFrenetPositionWithFrame position none)
      else some (e.2.getFrenetPositionWithFrame position none)

/-- The spec-side entry point: start from the corridor selected by
`get(hint)` and run the spec's resolution steps. -/
def specGetFrenetPositionWithFrame (seq : CorridorSequenceMap)
    (position : CartesianPoint2D) (start_arc_length : ℚ) (fuel : ℕ) :
    Option FrenetPositionWithFrame :=
  specResolve seq position fuel (seqGet seq start_arc_length)

/-! ## Helper lemmas -/

/-- A piecewise-linear profile whose nodes all carry the same value is that
constant everywhere (including the clamped regions). -/
lemma deviationAt_const : ∀ (pl : FrenetPolyline) (c s : ℚ),
    (∀ p ∈ pl, p.2 = c) → pl ≠ [] → deviationAt pl s = c
  | [], _, _, _, hne => absurd rfl hne
  | [(s₁, v₁)], c, s, hall, _ => by
    have hv : v₁ = c := hall (s₁, v₁) (by simp)
    simp [deviationAt, hv]
  | (s₁, v₁) :: (s₂, v₂) :: rest, c, s, hall, _ => by
    have h₁ : v₁ = c := hall (s₁, v₁) (by simp)
    have h₂ : v₂ = c := hall (s₂, v₂) (by simp)
    have ih := deviationAt_const ((s₂, v₂) :: rest) c s
      (fun p hp => hall p (List.mem_cons_of_mem _ hp)) (by simp)
    subst h₁
    subst h₂
    rw [deviationAt, ih]
    split_ifs <;> ring

/-- `keyAt` at a valid index is the first component of the entry there. -/
lemma keyAt_eq_get (seq : CorridorSequenceMap) (i : ℕ) (h : i < seq.length) :
    keyAt seq i = (seq.get ⟨i, h⟩).1 := by
  simp [keyAt, List.getElem?_eq_getElem h, List.get_eq_getElem]

/-- `lenAt` at a valid index is the corridor's reference-line length there. -/
lemma lenAt_eq_get (seq : CorridorSequenceMap) (i : ℕ) (h : i < seq.length) :
    lenAt seq i = (seq.get ⟨i, h⟩).2.lengthReferenceLine := by
  simp [lenAt, List.getElem?_eq_getElem h, List.get_eq_getElem]

/-- With strictly increasing keys, `keyAt` is strictly monotone on valid
indices. -/
lemma keyAt_lt_keyAt (seq : CorridorSequenceMap)
    (hsort : (seq.map Prod.fst).Pairwise (· < ·))
    {a b : ℕ} (hab : a < b) (hb : b < seq.length) :
    keyAt seq a < keyAt seq b := by
  have ha : a < seq.length := lt_trans hab hb
  have := (List.pairwise_iff_get.mp hsort)
    ⟨a, by simpa using ha⟩ ⟨b, by simpa using hb⟩ (by simpa using hab)
  simpa [keyAt_eq_get seq a ha, keyAt_eq_get seq b hb, List.get_map] using this

/-- `seqGet` really does return the index whose key is the greatest key
`≤ s`: the index is characterized by `keyAt i ≤ s` together with
`s < keyAt (i+1)` whenever an entry `i+1` exists. -/
lemma seqGet_eq_of : ∀ (seq : CorridorSequenceMap) (s : ℚ) (i : ℕ),
    (seq.map Prod.fst).Pairwise (· < ·) → i < seq.length →
    keyAt seq i ≤ s → (i + 1 < seq.length → s < keyAt seq (i + 1)) →
    seqGet seq s = i
  | [], _, i, _, hi, _, _ => absurd hi (by simp)
  | [e], _, i, _, hi, _, _ => by
    have hz : i = 0 := by simpa using Nat.lt_one_iff.mp (by simpa using hi)
    simp [seqGet, hz]
  | e₁ :: e₂ :: rest, s, i, hsort, hi, hkey, hnext => by
    cases i with
    | zero =>
      have hlen : 0 + 1 < (e₁ :: e₂ :: rest).length := by simp
      have h1 : s < e₂.1 := by
        have := hnext hlen
        simpa [keyAt] using this
      simp [seqGet, not_le.mpr h1]
    | succ j =>
      have hj : j < (e₂ :: rest).length := by
        simpa [Nat.succ_lt_succ_iff] using hi
      have htail : ((e₂ :: rest).map Prod.fst).Pairwise (· < ·) := by
        have h := hsort
        rw [List.map_cons] at h
        exact h.of_cons
      have hkey' : keyAt (e₂ :: rest) j ≤ s := by
        simpa [keyAt] using hkey
      have hnext' : j + 1 < (e₂ :: rest).length → s < keyAt (e₂ :: rest) (j + 1) := by
        intro hlt
        have := hnext (by simpa [Nat.succ_lt_succ_iff] using hlt)
        simpa [keyAt] using this
      have he₂ : e₂.1 ≤ s := by
        have h0 : keyAt (e₂ :: rest) 0 = e₂.1 := by simp [keyAt]
        rcases Nat.eq_zero_or_pos j with hj0 | hjpos
        · rw [← h0, ← hj0]; exact hkey'
        · have := keyAt_lt_keyAt (e₂ :: rest) htail hjpos hj
          rw [h0] at this
          exact le_trans (le_of_lt this) hkey'
      have ih := seqGet_eq_of (e₂ :: rest) s j htail hj hkey' hnext'
      simp [seqGet, he₂, ih]

/-! ## Concrete fixtures used by the witness theorems -/

/-- A concrete abstract reference curve: total length `len`, two sample
points at arc-lengths `0` and `1`, and a nearest-point projection that
always reports local arc-length `l₀` and lateral deviation `d₀`. -/
def testSpline (len l₀ d₀ : ℚ) : CubicSpline where
  GetSize := 2
  GetArclengthAtIndex := fun i => (i : ℚ)
  GetTotalLength := len
  GetPositionAt := fun s => (s, 0)
  GetNormalVectorAt := fun _ => (0, 1)
  GetCurvatureAt := fun _ => 0
  getFrenetPositionWithFrame := fun _ _ =>
    { position := { l := l₀, d := d₀ }
      frame := { origin := (0, 0), tangent := (1, 0), normal := (0, 1) } }

/-- A concrete corridor of reference length `len` whose projection always
reports local arc-length `l₀`, with constant boundary deviations `1`/`-1`. -/
def testCorridor (len l₀ : ℚ) : Corridor where
  id := 0
  referenceLine := testSpline len l₀ 0
  leftBound := [(0, 1), (len, 1)]
  rightBound := [(0, -1), (len, -1)]

/-! ## Claim theorems -/

/-- **C7.** For every Corridor and every arc-length `s`, `widthAt s` equals
the left component of `signedDistancesAt s` plus the absolute value of the
right component of `signedDistancesAt s`. -/
theorem widthAt_eq_left_add_abs_right (c : Corridor) (s : ℚ) :
    c.widthAt s = (c.signedDistancesAt s).1 + |(c.signedDistancesAt s).2| := rfl

/-- **C3.** A corridor built with the fixed-width constructor with
`distance_left_boundary = 2.0` and `distance_right_boundary = 1.5` answers
`signedDistancesAt s = (2.0, -1.5)` and `widthAt s = 3.5` at every
arc-length `s` (the reference spline has at least one sample point). -/
theorem fixedWidth_signedDistances_widthAt (id : ℕ) (spline : CubicSpline)
    (hsize : 0 < spline.GetSize) (s : ℚ) :
    (Corridor.fixedWidth id spline 2 (3/2)).signedDistancesAt s = (2, -(3/2)) ∧
    (Corridor.fixedWidth id spline 2 (3/2)).widthAt s = 7/2 := by
  have hne : (List.range spline.GetSize).map
      (fun i => (spline.GetArclengthAtIndex i, (2 : ℚ))) ≠ [] := by
    simp [List.map_eq_nil, List.range_eq_nil]
    omega
  have hne' : (List.range spline.GetSize).map
      (fun i => (spline.GetArclengthAtIndex i, -(3/2 : ℚ))) ≠ [] := by
    simp [List.map_eq_nil, List.range_eq_nil]
    omega
  have hleft : deviationAt ((List.range spline.GetSize).map
      (fun i => (spline.GetArclengthAtIndex i, (2 : ℚ)))) s = 2 := by
    refine deviationAt_const _ 2 s ?_ hne
    intro p hp
    simp only [List.mem_map] at hp
    obtain ⟨i, _, rfl⟩ := hp
    rfl
  have hright : deviationAt ((List.range spline.GetSize).map
      (fun i => (spline.GetArclengthAtIndex i, -(3/2 : ℚ)))) s = -(3/2) := by
    refine deviationAt_const _ (-(3/2)) s ?_ hne'
    intro p hp
    simp only [List.mem_map] at hp
    obtain ⟨i, _, rfl⟩ := hp
    rfl
  constructor
  · simp [Corridor.signedDistancesAt, Corridor.fixedWidth, hleft, hright]
  · rw [Corridor.widthAt]
    show deviationAt ((List.range spline.GetSize).map
        (fun i => (spline.GetArclengthAtIndex i, (2 : ℚ)))) s +
      |deviationAt ((List.range spline.GetSize).map
        (fun i => (spline.GetArclengthAtIndex i, -(3/2 : ℚ)))) s| = 7/2
    have habs : |(-(3/2) : ℚ)| = 3/2 := by
      rw [abs_neg]
      exact abs_of_nonneg (by norm_num)
    rw [hleft, hright, habs]
    norm_num

/-- Witness for **C3**: the fixed-width corridor over the concrete test
spline, queried at `s = 7`. -/
theorem fixedWidth_signedDistances_widthAt_witness :
    0 < (testSpline 5 0 0).GetSize ∧
    (Corridor.fixedWidth 1 (testSpline 5 0 0) 2 (3/2)).signedDistancesAt 7 = (2, -(3/2)) ∧
    (Corridor.fixedWidth 1 (testSpline 5 0 0) 2 (3/2)).widthAt 7 = 7/2 :=
  ⟨by decide, fixedWidth_signedDistances_widthAt 1 (testSpline 5 0 0) (by decide) 7⟩

/-- **C5.** For every non-empty CorridorSequence, `totalLength()` is the last
entry's key plus that corridor's reference-line length; and under the
chaining invariant (first key `0`, each next key = previous key + previous
corridor's length) it equals the sum of all corridors' reference-line
lengths. -/
theorem seqTotalLength_eq (seq : CorridorSequenceMap) (hne : seq ≠ []) :
    seqTotalLength seq =
      keyAt seq (seq.length - 1) + lenAt seq (seq.length - 1) ∧
    (keyAt seq 0 = 0 →
      (∀ i, i + 1 < seq.length → keyAt seq (i + 1) = keyAt seq i + lenAt seq i) →
      seqTotalLength seq = ∑ j ∈ Finset.range seq.length, lenAt seq j) := by
  have hlen : 0 < seq.length := List.length_pos.mpr hne
  have hlast : seq.length - 1 < seq.length := by omega
  have hpart1 : seqTotalLength seq =
      keyAt seq (seq.length - 1) + lenAt seq (seq.length - 1) := by
    simp only [seqTotalLength]
    rw [List.getLast?_eq_getElem?, List.getElem?_eq_getElem hlast]
    rw [keyAt_eq_get seq _ hlast, lenAt_eq_get seq _ hlast]
    simp [List.get_eq_getElem]
  refine ⟨hpart1, fun h0 hchain => ?_⟩
  have hpref : ∀ i, i < seq.length →
      keyAt seq i = ∑ j ∈ Finset.range i, lenAt seq j := by
    intro i
    induction i with
    | zero => intro _; simpa using h0
    | succ k ih =>
      intro hk
      rw [hchain k hk, ih (by omega), Finset.sum_range_succ]
  calc seqTotalLength seq
      = keyAt seq (seq.length - 1) + lenAt seq (seq.length - 1) := hpart1
    _ = (∑ j ∈ Finset.range (seq.length - 1), lenAt seq j) +
          lenAt seq (seq.length - 1) := by rw [hpref _ hlast]
    _ = ∑ j ∈ Finset.range (seq.length - 1 + 1), lenAt seq j :=
        (Finset.sum_range_succ _ _).symm
    _ = ∑ j ∈ Finset.range seq.length, lenAt seq j := by
        have hsucc : seq.length - 1 + 1 = seq.length := by omega
        rw [hsucc]

/-- A concrete chained two-corridor sequence: lengths 5 and 7, keys 0 and 5. -/
def testSeq : CorridorSequenceMap := [(0, testCorridor 5 0), (5, testCorridor 7 0)]

/-- Witness for **C5**: the chained two-corridor test sequence. -/
theorem seqTotalLength_eq_witness :
    seqTotalLength testSeq = ∑ j ∈ Finset.range testSeq.length, lenAt testSeq j :=
  (seqTotalLength_eq testSeq (by simp [testSeq])).2 (by decide)
    (by
      intro i hi
      simp only [testSeq, List.length_cons, List.length_nil] at hi
      have h0 : i = 0 := by omega
      subst h0
      norm_num [keyAt, lenAt, testSeq, testCorridor, testSpline,
        Corridor.lengthReferenceLine])

/-- **C6.** For every non-empty CorridorSequence with strictly increasing
keys and every global arc-length `s`, the point queries
`signedDistancesAt`, `widthAt`, `centerOffsetAt` and `curvatureAt` delegate
to the same-named query of the corridor at the entry with the greatest key
`≤ s`, evaluated at the local arc-length `s` minus that key. -/
theorem seqPointQueries_delegate (seq : CorridorSequenceMap) (s : ℚ) (i : ℕ)
    (hsort : (seq.map Prod.fst).Pairwise (· < ·)) (hi : i < seq.length)
    (hkey : keyAt seq i ≤ s)
    (hnext : i + 1 < seq.length → s < keyAt seq (i + 1)) :
    seqSignedDistancesAt seq s =
      (seq.get ⟨i, hi⟩).2.signedDistancesAt (s - (seq.get ⟨i, hi⟩).1) ∧
    seqWidthAt seq s = (seq.get ⟨i, hi⟩).2.widthAt (s - (seq.get ⟨i, hi⟩).1) ∧
    seqCenterOffsetAt seq s =
      (seq.get ⟨i, hi⟩).2.centerOffset (s - (seq.get ⟨i, hi⟩).1) ∧
    seqCurvatureAt seq s =
      (seq.get ⟨i, hi⟩).2.curvatureAt (s - (seq.get ⟨i, hi⟩).1) := by
  have hg := seqGet_eq_of seq s i hsort hi hkey hnext
  have hsome : seq[seqGet seq s]? = some (seq.get ⟨i, hi⟩) := by
    rw [hg, List.getElem?_eq_getElem hi, List.get_eq_getElem]
  refine ⟨?_, ?_, ?_, ?_⟩
  · simp only [seqSignedDistancesAt, List.get?_eq_getElem?, hsome]
  · simp only [seqWidthAt, List.get?_eq_getElem?, hsome]
  · simp only [seqCenterOffsetAt, List.get?_eq_getElem?, hsome]
  · simp only [seqCurvatureAt, List.get?_eq_getElem?, hsome]

/-- Witness for **C6**: the two-corridor test sequence queried at global
arc-length `6`, owned by the second corridor (key `5`), local arc-length `1`. -/
theorem seqPointQueries_delegate_witness :
    seqSignedDistancesAt testSeq 6 = (testCorridor 7 0).signedDistancesAt 1 ∧
    seqWidthAt testSeq 6 = (testCorridor 7 0).widthAt 1 ∧
    seqCenterOffsetAt testSeq 6 = (testCorridor 7 0).centerOffset 1 ∧
    seqCurvatureAt testSeq 6 = (testCorridor 7 0).curvatureAt 1 := by
  have h := seqPointQueries_delegate testSeq 6 1 (by decide)
    (by simp [testSeq]) (by decide)
    (by
      intro h2
      simp only [testSeq, List.length_cons, List.length_nil] at h2
      omega)
  have h6 : (6 : ℚ) - 5 = 1 := by norm_num
  simpa [testSeq, h6] using h

/-- Complete characterization of the sampling loop: with a positive step and
enough fuel it finishes, having emitted exactly the samples at
`q, q + δ, …, q + (m-1)·δ` for the least `m` with `q + m·δ` beyond the total
length, and leaves `query_l = q + m·δ`. -/
lemma fillLoop_char (c : Corridor) (delta : ℚ) (_hd : 0 < delta) :
    ∀ (fuel : ℕ) (q : ℚ),
    c.referenceLine.GetTotalLength < q + fuel * delta →
    ∃ m : ℕ, m ≤ fuel ∧
      (∀ j : ℕ, j < m → q + j * delta ≤ c.referenceLine.GetTotalLength) ∧
      c.referenceLine.GetTotalLength < q + m * delta ∧
      c.fillLoop delta fuel q =
        some (q + m * delta,
          (List.range m).map (fun j : ℕ => c.sampleAt (q + j * delta))) := by
  intro fuel
  induction fuel with
  | zero =>
    intro q hq
    refine ⟨0, le_refl 0, fun j hj => absurd hj (Nat.not_lt_zero j), ?_, ?_⟩
    · simpa using hq
    · have hq' : ¬ q ≤ c.referenceLine.GetTotalLength := by
        push_neg
        simpa using hq
      simp [Corridor.fillLoop, hq']
  | succ n ih =>
    intro q hq
    by_cases hle : q ≤ c.referenceLine.GetTotalLength
    · have hq' : c.referenceLine.GetTotalLength < (q + delta) + n * delta := by
        calc c.referenceLine.GetTotalLength < q + (n + 1 : ℕ) * delta := hq
          _ = (q + delta) + n * delta := by push_cast; ring
      obtain ⟨m, hm, hall, hgt, heq⟩ := ih (q + delta) hq'
      have hmap : (List.range (m + 1)).map
          (fun j : ℕ => c.sampleAt (q + j * delta)) =
          c.sampleAt q :: (List.range m).map
            (fun j : ℕ => c.sampleAt (q + delta + j * delta)) := by
        rw [List.range_succ_eq_map, List.map_cons, List.map_map]
        have hq0 : q + ((0 : ℕ) : ℚ) * delta = q := by push_cast; ring
        rw [hq0]
        refine congrArg (c.sampleAt q :: ·) (List.map_congr_left ?_)
        intro j _
        have hj1 : q + ((j + 1 : ℕ) : ℚ) * delta = q + delta + j * delta := by
          push_cast; ring
        rw [Function.comp_apply, hj1]
      have hfst : (q + delta) + (m : ℚ) * delta = q + ((m + 1 : ℕ) : ℚ) * delta := by
        push_cast; ring
      refine ⟨m + 1, by omega, ?_, ?_, ?_⟩
      · intro j hj
        cases j with
        | zero => simpa using hle
        | succ j' =>
          have := hall j' (by omega)
          calc q + (j' + 1 : ℕ) * delta = (q + delta) + j' * delta := by
                push_cast; ring
            _ ≤ c.referenceLine.GetTotalLength := this
      · calc c.referenceLine.GetTotalLength < (q + delta) + m * delta := hgt
          _ = q + (m + 1 : ℕ) * delta := hfst
      · rw [Corridor.fillLoop, if_pos hle, heq, Option.map_some', hmap, hfst]
    · push_neg at hle
      refine ⟨0, by omega, fun j hj => absurd hj (Nat.not_lt_zero j), ?_, ?_⟩
      · simpa using hle
      · have hq' : ¬ q ≤ c.referenceLine.GetTotalLength := not_le.mpr hle
        simp [Corridor.fillLoop, hq']

/-- **C8.** For every corridor with finite non-negative total length and
every step strictly greater than `0`, the `while` loop of
`Corridor::fillCartesianPolylines` terminates: some finite fuel makes the
loop finish, with the final `query_l` strictly beyond the total length. -/
theorem fillLoop_terminates (c : Corridor) (delta_l : ℚ) (hd : 0 < delta_l)
    (_hlen : 0 ≤ c.referenceLine.GetTotalLength) :
    ∃ (fuel : ℕ) (r : ℚ × List (CartesianPoint2D × CartesianPoint2D × CartesianPoint2D)),
      c.fillLoop delta_l fuel 0 = some r ∧
      c.referenceLine.GetTotalLength < r.1 := by
  obtain ⟨n, hn⟩ := exists_nat_gt (c.referenceLine.GetTotalLength / delta_l)
  have hbound : c.referenceLine.GetTotalLength < 0 + n * delta_l := by
    rw [zero_add]
    calc c.referenceLine.GetTotalLength
        = c.referenceLine.GetTotalLength / delta_l * delta_l := by
          field_simp
      _ < n * delta_l := by
          exact mul_lt_mul_of_pos_right hn hd
  obtain ⟨m, _, _, hgt, heq⟩ := fillLoop_char c delta_l hd n 0 hbound
  exact ⟨n, _, heq, hgt⟩

/-- Witness for **C8**: the concrete test corridor (length 5) sampled with
step 2. -/
theorem fillLoop_terminates_witness :
    ∃ (fuel : ℕ) (r : ℚ × List (CartesianPoint2D × CartesianPoint2D × CartesianPoint2D)),
      (testCorridor 5 0).fillLoop 2 fuel 0 = some r ∧
      (testCorridor 5 0).referenceLine.GetTotalLength < r.1 :=
  fillLoop_terminates (testCorridor 5 0) 2 (by norm_num)
    (by norm_num [testCorridor, testSpline])

/-- **C4.** For every corridor (positive step, non-negative total length),
`fillCartesianPolylines` ignores the previous contents of the three output
sequences (clearing them first), emits at least one sample into each, the
first emitted reference-line point is the curve position at arc-length `0`,
and the last emitted sample of each polyline is the sample at arc-length
exactly the curve's total length. -/
theorem fillCartesianPolylines_spec (c : Corridor) (delta_l : ℚ)
    (p₁ p₂ p₃ : List CartesianPoint2D) (hd : 0 < delta_l)
    (hlen : 0 ≤ c.referenceLine.GetTotalLength) :
    ∃ (fuel : ℕ) (refL leftL rightL : List CartesianPoint2D),
      c.fillCartesianPolylines delta_l p₁ p₂ p₃ fuel = some (refL, leftL, rightL) ∧
      c.fillCartesianPolylines delta_l [] [] [] fuel = some (refL, leftL, rightL) ∧
      refL ≠ [] ∧ leftL ≠ [] ∧ rightL ≠ [] ∧
      refL.head? = some (c.referenceLine.GetPositionAt 0) ∧
      refL.getLast? = some ((c.sampleAt c.referenceLine.GetTotalLength).1) ∧
      leftL.getLast? = some ((c.sampleAt c.referenceLine.GetTotalLength).2.1) ∧
      rightL.getLast? = some ((c.sampleAt c.referenceLine.GetTotalLength).2.2) := by
  obtain ⟨n, hn⟩ := exists_nat_gt (c.referenceLine.GetTotalLength / delta_l)
  have hbound : c.referenceLine.GetTotalLength < 0 + n * delta_l := by
    rw [zero_add]
    calc c.referenceLine.GetTotalLength
        = c.referenceLine.GetTotalLength / delta_l * delta_l := by field_simp
      _ < n * delta_l := mul_lt_mul_of_pos_right hn hd
  obtain ⟨m, _, _, hgt, heq⟩ := fillLoop_char c delta_l hd n 0 hbound
  obtain ⟨m', rfl⟩ : ∃ m', m = m' + 1 := by
    cases m with
    | zero =>
      exfalso
      have : c.referenceLine.GetTotalLength < 0 := by simpa using hgt
      linarith
    | succ m' => exact ⟨m', rfl⟩
  have hsamples : (List.range (m' + 1)).map
      (fun j : ℕ => c.sampleAt (0 + j * delta_l)) =
      c.sampleAt 0 :: (List.range m').map
        (fun j : ℕ => c.sampleAt (0 + (j + 1 : ℕ) * delta_l)) := by
    rw [List.range_succ_eq_map, List.map_cons, List.map_map]
    have hq0 : (0 : ℚ) + ((0 : ℕ) : ℚ) * delta_l = 0 := by push_cast; ring
    rw [hq0]
    refine congrArg (c.sampleAt 0 :: ·) (List.map_congr_left ?_)
    intro j _
    rw [Function.comp_apply]
  set L := (List.range m').map
    (fun j : ℕ => c.sampleAt (0 + (j + 1 : ℕ) * delta_l)) with hL
  set lastS := c.sampleAt c.referenceLine.GetTotalLength with hlastS
  have hfull : ∀ (q₁ q₂ q₃ : List CartesianPoint2D),
      c.fillCartesianPolylines delta_l q₁ q₂ q₃ n =
      some (((c.sampleAt 0 :: L) ++ [lastS]).map (fun t => t.1),
            ((c.sampleAt 0 :: L) ++ [lastS]).map (fun t => t.2.1),
            ((c.sampleAt 0 :: L) ++ [lastS]).map (fun t => t.2.2)) := by
    intro q₁ q₂ q₃
    rw [Corridor.fillCartesianPolylines, heq]
    simp only [Option.map_some']
    rw [if_pos hgt, hsamples]
  refine ⟨n, _, _, _, hfull p₁ p₂ p₃, hfull [] [] [], ?_, ?_, ?_, ?_, ?_, ?_, ?_⟩
  · simp
  · simp
  · simp
  · simp [Corridor.sampleAt]
  · simp only [List.map_append, List.map_cons, List.map_nil, List.getLast?_concat]
  · simp only [List.map_append, List.map_cons, List.map_nil, List.getLast?_concat]
  · simp only [List.map_append, List.map_cons, List.map_nil, List.getLast?_concat]

/-- Witness for **C4**: the concrete test corridor (length 5, step 2) with
non-empty previous output contents. -/
theorem fillCartesianPolylines_spec_witness :
    ∃ (fuel : ℕ) (refL leftL rightL : List CartesianPoint2D),
      (testCorridor 5 0).fillCartesianPolylines 2 [(9, 9)] [(9, 9)] [(9, 9)] fuel =
        some (refL, leftL, rightL) ∧
      (testCorridor 5 0).fillCartesianPolylines 2 [] [] [] fuel =
        some (refL, leftL, rightL) ∧
      refL ≠ [] ∧ leftL ≠ [] ∧ rightL ≠ [] ∧
      refL.head? = some ((testCorridor 5 0).referenceLine.GetPositionAt 0) ∧
      refL.getLast? = some
        (((testCorridor 5 0).sampleAt (testCorridor 5 0).referenceLine.GetTotalLength).1) ∧
      leftL.getLast? = some
        (((testCorridor 5 0).sampleAt (testCorridor 5 0).referenceLine.GetTotalLength).2.1) ∧
      rightL.getLast? = some
        (((testCorridor 5 0).sampleAt (testCorridor 5 0).referenceLine.GetTotalLength).2.2) :=
  fillCartesianPolylines_spec (testCorridor 5 0) 2 [(9, 9)] [(9, 9)] [(9, 9)]
    (by norm_num) (by norm_num [testCorridor, testSpline])

/-- **C9.** Whenever the total length is an exact (natural) multiple of the
positive step — including total length `0` — the final arc-length sample is
emitted twice: the loop's last iteration lands exactly on the total length
and the unconditional trailing block appends the same sample again, in each
of the three output polylines. -/
theorem fillCartesianPolylines_duplicate_last (c : Corridor) (delta_l : ℚ)
    (k : ℕ) (p₁ p₂ p₃ : List CartesianPoint2D) (hd : 0 < delta_l)
    (hmul : c.referenceLine.GetTotalLength = k * delta_l) :
    ∃ (fuel : ℕ) (pre₁ pre₂ pre₃ : List CartesianPoint2D),
      c.fillCartesianPolylines delta_l p₁ p₂ p₃ fuel =
        some (pre₁ ++ [(c.sampleAt c.referenceLine.GetTotalLength).1,
                       (c.sampleAt c.referenceLine.GetTotalLength).1],
              pre₂ ++ [(c.sampleAt c.referenceLine.GetTotalLength).2.1,
                       (c.sampleAt c.referenceLine.GetTotalLength).2.1],
              pre₃ ++ [(c.sampleAt c.referenceLine.GetTotalLength).2.2,
                       (c.sampleAt c.referenceLine.GetTotalLength).2.2]) := by
  have hbound : c.referenceLine.GetTotalLength < 0 + (k + 1 : ℕ) * delta_l := by
    rw [hmul]
    push_cast
    nlinarith
  obtain ⟨m, hm, hall, hgt, heq⟩ := fillLoop_char c delta_l hd (k + 1) 0 hbound
  have hmk : m = k + 1 := by
    have h1 : (k : ℚ) * delta_l < m * delta_l := by
      calc (k : ℚ) * delta_l = c.referenceLine.GetTotalLength := hmul.symm
        _ < 0 + m * delta_l := hgt
        _ = m * delta_l := by ring
    have h2 : (k : ℚ) < m := lt_of_mul_lt_mul_right h1 (le_of_lt hd)
    have h3 : k < m := by exact_mod_cast h2
    omega
  subst hmk
  have hsplit : (List.range (k + 1)).map
      (fun j : ℕ => c.sampleAt (0 + j * delta_l)) =
      (List.range k).map (fun j : ℕ => c.sampleAt (0 + j * delta_l)) ++
        [c.sampleAt c.referenceLine.GetTotalLength] := by
    rw [List.range_succ, List.map_append, List.map_cons, List.map_nil]
    have : (0 : ℚ) + (k : ℚ) * delta_l = c.referenceLine.GetTotalLength := by
      rw [hmul]; ring
    rw [this]
  refine ⟨k + 1,
    ((List.range k).map (fun j : ℕ => c.sampleAt (0 + j * delta_l))).map (fun t => t.1),
    ((List.range k).map (fun j : ℕ => c.sampleAt (0 + j * delta_l))).map (fun t => t.2.1),
    ((List.range k).map (fun j : ℕ => c.sampleAt (0 + j * delta_l))).map (fun t => t.2.2),
    ?_⟩
  rw [Corridor.fillCartesianPolylines, heq]
  simp only [Option.map_some']
  rw [if_pos hgt, hsplit]
  simp only [List.append_assoc, List.singleton_append, List.map_append,
    List.map_cons, List.map_nil]

/-- Witness for **C9**: the concrete test corridor of length 5 sampled with
step 1 (`5 = 5 * 1`). -/
theorem fillCartesianPolylines_duplicate_last_witness :
    ∃ (fuel : ℕ) (pre₁ pre₂ pre₃ : List CartesianPoint2D),
      (testCorridor 5 0).fillCartesianPolylines 1 [] [] [] fuel =
        some (pre₁ ++ [((testCorridor 5 0).sampleAt
                (testCorridor 5 0).referenceLine.GetTotalLength).1,
              ((testCorridor 5 0).sampleAt
                (testCorridor 5 0).referenceLine.GetTotalLength).1],
              pre₂ ++ [((testCorridor 5 0).sampleAt
                (testCorridor 5 0).referenceLine.GetTotalLength).2.1,
              ((testCorridor 5 0).sampleAt
                (testCorridor 5 0).referenceLine.GetTotalLength).2.1],
              pre₃ ++ [((testCorridor 5 0).sampleAt
                (testCorridor 5 0).referenceLine.GetTotalLength).2.2,
              ((testCorridor 5 0).sampleAt
                (testCorridor 5 0).referenceLine.GetTotalLength).2.2]) :=
  fillCartesianPolylines_duplicate_last (testCorridor 5 0) 1 5 [] [] []
    (by norm_num) (by norm_num [testCorridor, testSpline])

/-- One unfolding of the resolution recursion at a valid entry. -/
lemma seqResolve_succ_some (seq : CorridorSequenceMap)
    (position : CartesianPoint2D) (fuel i : ℕ) (e : ℚ × Corridor)
    (he : seq.get? i = some e) :
    seqResolve seq position (fuel + 1) i =
      if (e.2.getFrenetPositionWithFrame position none).position.l < 0 ∧ i ≠ 0 then
        seqResolve seq position fuel (i - 1)
      else if e.2.lengthReferenceLine <
          (e.2.getFrenetPositionWithFrame position none).position.l ∧
          i + 1 < seq.length then
        seqResolve seq position fuel (i + 1)
      else some (e.2.getFrenetPositionWithFrame position none) := by
  rw [seqResolve, he]

/-- The code's recursive resolution computes exactly the spec's resolution,
entry by entry, for every fuel. -/
lemma seqResolve_eq_specResolve (seq : CorridorSequenceMap)
    (position : CartesianPoint2D) :
    ∀ (n i : ℕ), seqResolve seq position n i = specResolve seq position n i := by
  intro n
  induction n with
  | zero => intro i; rfl
  | succ m ih =>
    intro i
    rw [seqResolve, specResolve]
    cases hgi : seq.get? i with
    | none => rfl
    | some e =>
      by_cases hA : (e.2.getFrenetPositionWithFrame position none).position.l < 0
      · by_cases hB : i = 0
        · subst hB
          simp [hA, ih]
        · have hB' : 0 < i := Nat.pos_of_ne_zero hB
          simp [hA, hB, hB', ih]
      · by_cases hC : e.2.lengthReferenceLine <
            (e.2.getFrenetPositionWithFrame position none).position.l
        · by_cases hD : i + 1 < seq.length
          · simp [hA, hC, hD, ih]
          · simp [hA, hC, hD]
        · simp [hA, hC]

/-- **C1.** For every non-empty CorridorSequence, Cartesian point and
starting hint, `CorridorSequence::getFrenetPositionWithFrame` computes the
spec's resolution algorithm: project into the corridor selected by
`get(hint)`; recurse into the previous corridor and return its result when
the local arc-length is negative and a previous corridor exists; else
recurse into the next corridor and return its result when the local
arc-length exceeds the current reference-line length and a next corridor
exists; else return the current projection unchanged. -/
theorem seqGetFrenet_follows_spec (seq : CorridorSequenceMap) (_hne : seq ≠ [])
    (position : CartesianPoint2D) (start_arc_length : ℚ) (fuel : ℕ) :
    seqGetFrenetPositionWithFrame seq position start_arc_length fuel =
      specGetFrenetPositionWithFrame seq position start_arc_length fuel := by
  rw [seqGetFrenetPositionWithFrame, specGetFrenetPositionWithFrame,
    seqResolve_eq_specResolve]

/-- Witness for **C1**: the two-corridor test sequence at point `(0, 0)`,
hint `0`, fuel `3`. -/
theorem seqGetFrenet_follows_spec_witness :
    seqGetFrenetPositionWithFrame testSeq ((0 : ℚ), (0 : ℚ)) 0 3 =
      specGetFrenetPositionWithFrame testSeq ((0 : ℚ), (0 : ℚ)) 0 3 :=
  seqGetFrenet_follows_spec testSeq (by simp [testSeq]) ((0 : ℚ), (0 : ℚ)) 0 3

/-- **C10.** The starting hint only selects the starting map entry: two
hints whose `get` lookup selects the same entry give identical results, the
hint being never forwarded as a seed to the corridor-level nearest-point
projection (which is always invoked without a hint). -/
theorem hint_only_selects_entry (seq : CorridorSequenceMap) (_hne : seq ≠ [])
    (position : CartesianPoint2D) (hint₁ hint₂ : ℚ) (fuel : ℕ)
    (hsame : seqGet seq hint₁ = seqGet seq hint₂) :
    seqGetFrenetPositionWithFrame seq position hint₁ fuel =
      seqGetFrenetPositionWithFrame seq position hint₂ fuel := by
  rw [seqGetFrenetPositionWithFrame, seqGetFrenetPositionWithFrame, hsame]

/-- Witness for **C10**: hints `1` and `2` both select the first entry of
the test sequence. -/
theorem hint_only_selects_entry_witness :
    seqGetFrenetPositionWithFrame testSeq ((0 : ℚ), (0 : ℚ)) 1 4 =
      seqGetFrenetPositionWithFrame testSeq ((0 : ℚ), (0 : ℚ)) 2 4 :=
  hint_only_selects_entry testSeq (by simp [testSeq]) ((0 : ℚ), (0 : ℚ)) 1 2 4
    (by decide)

/-! ## Termination of the cross-segment resolution (C2)

The recursion of corridor.cpp lines 183-208 does **not** terminate in
general: a point that projects before corridor `i+1` (negative local
arc-length) while projecting beyond corridor `i`'s length makes the two
adjacent corridors hand the query back and forth forever.  `badSeq` below
realizes this oscillation. -/

/-- Two adjacent corridors that bounce the resolution between each other for
every Cartesian point: the first corridor (length 5) always projects to
local arc-length 10 (beyond its end), the second always to -1 (before its
start). -/
def badSeq : CorridorSequenceMap := [(0, testCorridor 5 10), (5, testCorridor 5 (-1))]

/-- On `badSeq`, the resolution recursion oscillates between the two
entries: it returns `none` (fuel exhausted) for every fuel at both starting
iterators. -/
lemma badSeq_resolve_none : ∀ n : ℕ,
    seqResolve badSeq ((0 : ℚ), (0 : ℚ)) n 0 = none ∧
    seqResolve badSeq ((0 : ℚ), (0 : ℚ)) n 1 = none := by
  intro n
  induction n with
  | zero => exact ⟨rfl, rfl⟩
  | succ m ih =>
    constructor
    · rw [seqResolve]
      norm_num [badSeq, testCorridor, testSpline,
        Corridor.getFrenetPositionWithFrame, Corridor.lengthReferenceLine]
      exact ih.2
    · rw [seqResolve]
      norm_num [badSeq, testCorridor, testSpline,
        Corridor.getFrenetPositionWithFrame, Corridor.lengthReferenceLine]
      exact ih.1

/-- Counterexample to **C2** as stated: on the concrete non-empty sequence
`badSeq`, the point `(0, 0)` and the (valid) starting iterator `0`, the
recursive resolution never terminates — no amount of fuel completes it. -/
theorem seqResolve_not_always_terminating :
    ¬ ∃ n : ℕ, (seqResolve badSeq ((0 : ℚ), (0 : ℚ)) n 0).isSome := by
  rintro ⟨n, hn⟩
  rw [(badSeq_resolve_none n).1] at hn
  simp at hn

/-- The condition under which the recursion does terminate: no adjacent pair
of entries is "conflicting" for the queried point — the point never projects
before corridor `i+1` while also projecting beyond corridor `i`'s
reference-line length. -/
def noAdjacentConflict (seq : CorridorSequenceMap)
    (position : CartesianPoint2D) : Prop :=
  ∀ i : ℕ, i + 1 < seq.length →
    ¬ (projL seq position (i + 1) < 0 ∧
        lenAt seq i < projL seq position i)

/-- Once the resolution has stepped leftward into entry `i` (because the
point projects before entry `i + 1`), absence of adjacent conflicts keeps it
moving left, so fuel `> i` suffices. -/
lemma resolve_left_ok (seq : CorridorSequenceMap) (position : CartesianPoint2D)
    (hnc : noAdjacentConflict seq position) :
    ∀ (n i : ℕ), i < n → i + 1 < seq.length →
      projL seq position (i + 1) < 0 →
      (seqResolve seq position n i).isSome := by
  intro n
  induction n with
  | zero => intro i hi; omega
  | succ m ih =>
    intro i hin hi1 hl
    have hi : i < seq.length := by omega
    cases he : seq.get? i with
    | none =>
      have := List.get?_eq_none.mp he
      omega
    | some e =>
      have he' : seq[i]? = some e := by rw [← List.get?_eq_getElem?]; exact he
      have hproj : projL seq position i =
          (e.2.getFrenetPositionWithFrame position none).position.l := by
        simp [projL, he']
      have hlen : lenAt seq i = e.2.lengthReferenceLine := by
        simp [lenAt, he']
      rw [seqResolve_succ_some seq position m i e he]
      by_cases h1 : (e.2.getFrenetPositionWithFrame position none).position.l < 0 ∧
          i ≠ 0
      · rw [if_pos h1]
        have hi0 : 0 < i := Nat.pos_of_ne_zero h1.2
        apply ih (i - 1) (by omega) (by omega)
        have hieq : i - 1 + 1 = i := by omega
        rw [hieq, hproj]
        exact h1.1
      · rw [if_neg h1]
        have h2 : ¬ (e.2.lengthReferenceLine <
            (e.2.getFrenetPositionWithFrame position none).position.l ∧
            i + 1 < seq.length) := by
          rintro ⟨hgt, _⟩
          exact hnc i hi1 ⟨hl, by rw [hlen, hproj]; exact hgt⟩
        rw [if_neg h2]
        simp

/-- Once the resolution has stepped rightward into entry `i` (because the
point projects beyond entry `i - 1`), absence of adjacent conflicts keeps it
moving right, so fuel `≥ length - i` suffices. -/
lemma resolve_right_ok (seq : CorridorSequenceMap) (position : CartesianPoint2D)
    (hnc : noAdjacentConflict seq position) :
    ∀ (n i : ℕ), seq.length - i ≤ n → 0 < i → i < seq.length →
      lenAt seq (i - 1) < projL seq position (i - 1) →
      (seqResolve seq position n i).isSome := by
  intro n
  induction n with
  | zero => intro i hn hpos hi; omega
  | succ m ih =>
    intro i hn hpos hi hprev
    cases he : seq.get? i with
    | none =>
      have := List.get?_eq_none.mp he
      omega
    | some e =>
      have he' : seq[i]? = some e := by rw [← List.get?_eq_getElem?]; exact he
      have hproj : projL seq position i =
          (e.2.getFrenetPositionWithFrame position none).position.l := by
        simp [projL, he']
      have hlen : lenAt seq i = e.2.lengthReferenceLine := by
        simp [lenAt, he']
      rw [seqResolve_succ_some seq position m i e he]
      have h1 : ¬ ((e.2.getFrenetPositionWithFrame position none).position.l < 0 ∧
          i ≠ 0) := by
        rintro ⟨hl, _⟩
        apply hnc (i - 1) (by omega)
        have hieq : i - 1 + 1 = i := by omega
        rw [hieq]
        exact ⟨by rw [hproj]; exact hl, hprev⟩
      rw [if_neg h1]
      by_cases h2 : e.2.lengthReferenceLine <
          (e.2.getFrenetPositionWithFrame position none).position.l ∧
          i + 1 < seq.length
      · rw [if_pos h2]
        apply ih (i + 1) (by omega) (by omega) h2.2
        have hieq : i + 1 - 1 = i := by omega
        rw [hieq, hlen, hproj]
        exact h2.1
      · rw [if_neg h2]
        simp

/-- **C2 (amended).** The recursive resolution terminates from every valid
starting iterator whenever no adjacent pair of corridors is conflicting for
the queried point (the point never projects before corridor `i+1` while
projecting beyond corridor `i`'s length); without that proviso it can
oscillate between two adjacent corridors forever
(`seqResolve_not_always_terminating`). -/
theorem seqResolve_terminates_of_noAdjacentConflict (seq : CorridorSequenceMap)
    (position : CartesianPoint2D) (i : ℕ) (hi : i < seq.length)
    (hnc : noAdjacentConflict seq position) :
    ∃ n : ℕ, (seqResolve seq position n i).isSome := by
  refine ⟨seq.length, ?_⟩
  obtain ⟨m, hm⟩ : ∃ m, seq.length = m + 1 := ⟨seq.length - 1, by omega⟩
  rw [hm]
  cases he : seq.get? i with
  | none =>
    have := List.get?_eq_none.mp he
    omega
  | some e =>
    have he' : seq[i]? = some e := by rw [← List.get?_eq_getElem?]; exact he
    have hproj : projL seq position i =
        (e.2.getFrenetPositionWithFrame position none).position.l := by
      simp [projL, he']
    have hlen : lenAt seq i = e.2.lengthReferenceLine := by
      simp [lenAt, he']
    rw [seqResolve_succ_some seq position m i e he]
    by_cases h1 : (e.2.getFrenetPositionWithFrame position none).position.l < 0 ∧
        i ≠ 0
    · rw [if_pos h1]
      have hi0 : 0 < i := Nat.pos_of_ne_zero h1.2
      apply resolve_left_ok seq position hnc m (i - 1) (by omega) (by omega)
      have hieq : i - 1 + 1 = i := by omega
      rw [hieq, hproj]
      exact h1.1
    · rw [if_neg h1]
      by_cases h2 : e.2.lengthReferenceLine <
          (e.2.getFrenetPositionWithFrame position none).position.l ∧
          i + 1 < seq.length
      · rw [if_pos h2]
        apply resolve_right_ok seq position hnc m (i + 1) (by omega) (by omega)
          (by omega)
        have hieq : i + 1 - 1 = i := by omega
        rw [hieq, hlen, hproj]
        exact h2.1
      · rw [if_neg h2]
        simp

/-- A single-corridor sequence: no adjacent pair exists at all. -/
def soloSeq : CorridorSequenceMap := [(0, testCorridor 5 2)]

/-- Witness for the amended **C2**: the single-corridor sequence has no
adjacent pair, so resolution from iterator `0` terminates. -/
theorem seqResolve_terminates_witness :
    ∃ n : ℕ, (seqResolve soloSeq ((1 : ℚ), (1 : ℚ)) n 0).isSome :=
  seqResolve_terminates_of_noAdjacentConflict soloSeq ((1 : ℚ), (1 : ℚ)) 0
    (by simp [soloSeq])
    (by
      intro i h
      simp only [soloSeq, List.length_cons, List.length_nil] at h
      omega)

end CorridorProof
